import Mathlib

/-!
Verification of the MLS listings ingestion/reconciliation pipeline
(`automated_downloader.py`): feed parsing, change detection, and the
create / update / mark-sold writer over the `listings` table
(`listing_key TEXT UNIQUE`, promoted scalar columns, `data JSONB`,
`updated_at TIMESTAMPTZ`).

The embedding is shallow: Python dicts become association lists, the
database table becomes a list of rows, `jsonb` values become a small
inductive `JVal`, and the wall clock (`datetime.now()` / SQL `now()`)
becomes an explicit `String` parameter `t` threaded through every
operation.  The MD5 content hash of a file is modelled by the file
content itself (MD5 is used only as an equality proxy in the source).
-/

set_option autoImplicit false

namespace MlsPipeline

/-- Values that occur in the `data JSONB` blob.  In every state reachable
by this pipeline the blob is a one-level object whose values are strings,
nulls, booleans, or the `_raw_data` object of strings/nulls, so nested
objects carry `Option String` values. -/
inductive JVal where
  | jnull
  | jstr (s : String)
  | jbool (b : Bool)
  | jobj (fields : List (String × Option String))
deriving DecidableEq, Repr

/-- A `jsonb` object / Python dict: association list keyed by field name. -/
abbrev Obj := List (String × JVal)

/-- Python dict assignment `d[k] = v` (and `jsonb` object key update):
replace the value at an existing key in place, else append the new pair. -/
def alistSet {α : Type} : List (String × α) → String → α → List (String × α)
  | [], k, v => [(k, v)]
  | p :: d, k, v => if p.1 == k then (k, v) :: d else p :: alistSet d k v

/-- The `jsonb` concatenation `d || a`: right operand's keys win. -/
def objConcat (d a : Obj) : Obj :=
  a.foldl (fun acc p => alistSet acc p.1 p.2) d

/-- Python `str()` of a value that is either a string or `None`. -/
def pyStrOpt : Option String → String
  | none => "None"
  | some s => s

/-- The whitespace characters removed by Python `str.strip()`. -/
def pySpace (c : Char) : Bool :=
  c == ' ' || c == '\t' || c == '\n' || c == '\r' || c == '\x0b' || c == '\x0c'

/-- Python `str.strip()`: drop whitespace from both ends. -/
def pyStrip (s : String) : String :=
  ⟨((s.data.dropWhile pySpace).reverse.dropWhile pySpace).reverse⟩

/-- Python `repr` of a string value inside a container. -/
def pyReprOptStr : Option String → String
  | none => "None"
  | some s => "\x27" ++ s ++ "\x27"

/-- Python `repr` of the field list of a dict. -/
def pyReprFields : List (String × Option String) → String
  | [] => ""
  | [(k, v)] => "\x27" ++ k ++ "\x27: " ++ pyReprOptStr v
  | (k, v) :: rest =>
      "\x27" ++ k ++ "\x27: " ++ pyReprOptStr v ++ ", " ++ pyReprFields rest

/-- Python `str()` of a JSON-decoded value (`str(None) = 'None'`,
`str(True) = 'True'`, dicts render as their repr). -/
def pyStrJ : JVal → String
  | .jnull => "None"
  | .jstr s => s
  | .jbool true => "True"
  | .jbool false => "False"
  | .jobj fs => "\x7b" ++ pyReprFields fs ++ "\x7d"

/-- One normalized listing as built by `parse_idx_file` (the Python dict
with the fixed key set; a `none` field value is Python `None`). -/
structure ListingRecord where
  ListingKey : String
  ListingID : Option String
  ListPrice : Option String
  StreetName : Option String
  City : Option String
  StateOrProvince : Option String
  PostalCode : Option String
  BedroomsTotal : Option String
  BathroomsTotalInteger : Option String
  LivingArea : Option String
  ListingStatus : Option String
  ModificationTimestamp : String
  rawData : List (String × Option String)
  fileSource : String
deriving DecidableEq, Repr

/-- JSON encoding of an optional string field (`None` becomes null). -/
def optJ : Option String → JVal
  | none => .jnull
  | some s => .jstr s

/-- `Json(listing)`: the JSONB blob stored in the `data` column. -/
def jsonOfListing (l : ListingRecord) : Obj :=
  [("ListingKey", .jstr l.ListingKey),
   ("ListingID", optJ l.ListingID),
   ("ListPrice", optJ l.ListPrice),
   ("StreetName", optJ l.StreetName),
   ("City", optJ l.City),
   ("StateOrProvince", optJ l.StateOrProvince),
   ("PostalCode", optJ l.PostalCode),
   ("BedroomsTotal", optJ l.BedroomsTotal),
   ("BathroomsTotalInteger", optJ l.BathroomsTotalInteger),
   ("LivingArea", optJ l.LivingArea),
   ("ListingStatus", optJ l.ListingStatus),
   ("ModificationTimestamp", .jstr l.ModificationTimestamp),
   ("_raw_data", .jobj l.rawData),
   ("_file_source", .jstr l.fileSource)]

/-- One row of the `listings` table, restricted to the columns the
pipeline reads or writes (`init_railway_db.py` DDL). -/
structure StoredListing where
  listing_key : String
  listingid : Option String
  listprice : Option String
  streetname : Option String
  city : Option String
  stateorprovince : Option String
  postalcode : Option String
  bedroomstotal : Option String
  bathroomstotalinteger : Option String
  livingarea : Option String
  latitude : Option String
  longitude : Option String
  listingstatus : Option String
  modificationtimestamp : Option String
  data : Obj
  updated_at : String
deriving DecidableEq, Repr

/-- The `listings` table: a list of rows (row order is insertion order). -/
abbrev Store := List StoredListing

/-- The row written for `listing` by `_insert_listings` (both on plain
insert and as the `EXCLUDED`-based overwrite of `ON CONFLICT`): every
column is taken from the record, latitude/longitude are `NULL`,
`updated_at` is the current time `t`. -/
def mkRow (t : String) (l : ListingRecord) : StoredListing where
  listing_key := l.ListingKey
  listingid := l.ListingID
  listprice := l.ListPrice
  streetname := l.StreetName
  city := l.City
  stateorprovince := l.StateOrProvince
  postalcode := l.PostalCode
  bedroomstotal := l.BedroomsTotal
  bathroomstotalinteger := l.BathroomsTotalInteger
  livingarea := l.LivingArea
  latitude := none
  longitude := none
  listingstatus := l.ListingStatus
  modificationtimestamp := some l.ModificationTimestamp
  data := jsonOfListing l
  updated_at := t

/-- One `INSERT ... ON CONFLICT (listing_key) DO UPDATE` statement:
if a row with the key exists it is overwritten column by column with the
new record's values, otherwise a new row is appended. -/
def upsertListing (t : String) (l : ListingRecord) (s : Store) : Store :=
  if s.any (fun r => r.listing_key == l.ListingKey) then
    s.map (fun r => if r.listing_key == l.ListingKey then mkRow t l else r)
  else
    s ++ [mkRow t l]

/-- The column assignments of one `_update_listings` statement: every
promoted column except `listingid`, `latitude`, `longitude` is set from
the record, `data` is replaced by the record's JSON, `updated_at := t`;
`listing_key` is only used in the WHERE clause. -/
def updRow (t : String) (l : ListingRecord) (r : StoredListing) : StoredListing :=
  { r with
    listprice := l.ListPrice
    streetname := l.StreetName
    city := l.City
    stateorprovince := l.StateOrProvince
    postalcode := l.PostalCode
    bedroomstotal := l.BedroomsTotal
    bathroomstotalinteger := l.BathroomsTotalInteger
    livingarea := l.LivingArea
    listingstatus := l.ListingStatus
    modificationtimestamp := some l.ModificationTimestamp
    data := jsonOfListing l
    updated_at := t }

/-- One `UPDATE listings SET ... WHERE listing_key = %s` statement. -/
def updateListing (t : String) (l : ListingRecord) (s : Store) : Store :=
  s.map (fun r => if r.listing_key == l.ListingKey then updRow t l r else r)

/-- The audit object merged into `data` by `_mark_listings_sold`. -/
def sold_patch (t : String) : Obj :=
  [("auto_marked_sold", .jbool true), ("marked_sold_at", .jstr t)]

/-- Effect of one `_mark_listings_sold` statement on a matching row:
status becomes the `SOLD` sentinel, the audit object is merged into the
blob, `updated_at := t`; everything else is untouched. -/
def markRow (t : String) (r : StoredListing) : StoredListing :=
  { r with
    listingstatus := some "SOLD"
    data := objConcat r.data (sold_patch t)
    updated_at := t }

/-- One `_mark_listings_sold` statement for key `k`. -/
def markSoldKey (t : String) (k : String) (s : Store) : Store :=
  s.map (fun r => if r.listing_key == k then markRow t r else r)

/-- `_insert_listings`: upsert each record in order. -/
def insert_listings (t : String) (ls : List ListingRecord) (s : Store) : Store :=
  ls.foldl (fun acc l => upsertListing t l acc) s

/-- `_update_listings`: update each record in order. -/
def update_listings (t : String) (ls : List ListingRecord) (s : Store) : Store :=
  ls.foldl (fun acc l => updateListing t l acc) s

/-- `_mark_listings_sold`: mark each key in order. -/
def mark_listings_sold (t : String) (ks : List String) (s : Store) : Store :=
  ks.foldl (fun acc k => markSoldKey t k acc) s

/-- The ChangeSet returned by `detect_changes`. -/
structure ChangeSet where
  create : List ListingRecord
  update : List ListingRecord
  mark_sold : List String
deriving DecidableEq, Repr

/-- `execute_crud_operations`: apply the three phases in order (the
`if changes[...]` guards in the source only skip empty batches, which is
what an empty fold does). -/
def execute_crud_operations (t : String) (c : ChangeSet) (s : Store) : Store :=
  mark_listings_sold t c.mark_sold (update_listings t c.update (insert_listings t c.create s))

/-- One snapshot entry of `get_existing_listings`: the `data` blob and
`updated_at` of a stored row. -/
structure ExistingEntry where
  data : Obj
  updated_at : String
deriving DecidableEq, Repr

/-- `get_existing_listings`: one bulk read of the whole table into a dict
keyed by `listing_key` (dict assignment row by row, so with duplicate keys
in the table the last row would win). -/
def get_existing_listings (s : Store) : List (String × ExistingEntry) :=
  s.foldl (fun acc r => alistSet acc r.listing_key ⟨r.data, r.updated_at⟩) []

/-- The fixed comparison field subset of `detect_changes`. -/
def key_fields : List String := ["ListPrice", "ListingStatus", "ModificationTimestamp"]

/-- `str(listing.get(field, ''))` for a comparison field of the parsed
listing dict: the dict always carries these keys, so the `''` default is
never hit and a `None` value renders as `'None'`. -/
def listingField (l : ListingRecord) (f : String) : String :=
  if f == "ListPrice" then pyStrOpt l.ListPrice
  else if f == "ListingStatus" then pyStrOpt l.ListingStatus
  else if f == "ModificationTimestamp" then l.ModificationTimestamp
  else ""

/-- `str(existing_data.get(field, ''))` for the stored blob: a key absent
from the blob yields the `''` default, a JSON null renders as `'None'`. -/
def storedField (d : Obj) (f : String) : String :=
  match d.lookup f with
  | none => ""
  | some v => pyStrJ v

/-- The `has_changes` test of `detect_changes`: some comparison field
differs after `str(...).strip()` on both sides. -/
def has_changes (l : ListingRecord) (d : Obj) : Bool :=
  key_fields.any (fun f => pyStrip (listingField l f) != pyStrip (storedField d f))

/-- `detect_changes`: partition the freshly parsed records against the
snapshot.  `to_mark_sold` is the set difference `existing_keys - new_keys`
(enumerated in snapshot order); each new record is appended to `to_create`
when its key is unseen, to `to_update` when the stored blob differs on a
comparison field, and to neither otherwise. -/
def detect_changes (new_listings : List ListingRecord)
    (existing : List (String × ExistingEntry)) : ChangeSet :=
  let new_keys := new_listings.map (fun l => l.ListingKey)
  let to_mark_sold := (existing.map (fun p => p.1)).filter (fun k => !(new_keys.contains k))
  let cu := new_listings.foldl
    (fun (cu : List ListingRecord × List ListingRecord) l =>
      match existing.lookup l.ListingKey with
      | none => (cu.1 ++ [l], cu.2)
      | some e => if has_changes l e.data then (cu.1, cu.2 ++ [l]) else cu)
    ([], [])
  { create := cu.1, update := cu.2, mark_sold := to_mark_sold }

/-- One downloaded IDX file as the pipeline sees it: its name, its raw
content (standing in for the MD5 hash, which the source uses only for
equality), the rows `csv.DictReader` would yield (each a dict from header
field to cell value, `none` for a short row), and whether opening the
file succeeds at all. -/
structure IdxFile where
  name : String
  content : String
  rows : List (List (String × Option String))
  readable : Bool
deriving DecidableEq, Repr

/-- `row.get(k)`: `None` both when the key is absent and when the stored
value is `None`. -/
def rowGet (row : List (String × Option String)) (k : String) : Option String :=
  match row.lookup k with
  | none => none
  | some v => v

/-- Python truthiness of a string-or-`None` value. -/
def pyTruthy : Option String → Bool
  | none => false
  | some s => s != ""

/-- The listing dict built by `parse_idx_file` for one row, `none` when
the row is dropped for lacking a truthy `LIST_NO`. -/
def parseRow (t : String) (fileName : String)
    (row : List (String × Option String)) : Option ListingRecord :=
  if pyTruthy (rowGet row "LIST_NO") then
    some
      { ListingKey := (rowGet row "LIST_NO").getD ""
        ListingID := rowGet row "LIST_NO"
        ListPrice := rowGet row "LIST_PRICE"
        StreetName := rowGet row "STREET_NAME"
        City := rowGet row "TOWN_NUM"
        StateOrProvince := some "MA"
        PostalCode := rowGet row "ZIP_CODE"
        BedroomsTotal := rowGet row "NO_BEDROOMS"
        BathroomsTotalInteger := rowGet row "NO_FULL_BATHS"
        LivingArea := rowGet row "SQUARE_FEET"
        ListingStatus := rowGet row "STATUS"
        ModificationTimestamp := t
        rawData := row
        fileSource := fileName }
  else none

/-- `parse_idx_file`: map over the rows, dropping keyless ones; a file
that cannot be opened is absorbed by the internal handler and yields no
records. -/
def parse_idx_file (t : String) (f : IdxFile) : List ListingRecord :=
  if f.readable then f.rows.filterMap (parseRow t f.name) else []

/-- One entry of `processed_files.json`. -/
structure LogEntry where
  hash : String
  processed_at : String
  file_path : String
deriving DecidableEq, Repr

/-- The on-disk state of `processed_files.json`: missing, unparseable,
or a dict of entries keyed by file name. -/
inductive LogState where
  | absent
  | corrupted
  | valid (entries : List (String × LogEntry))
deriving DecidableEq, Repr

/-- `load_processed_files_log`: `{}` when the file does not exist; a
corrupted file makes `json.load` raise (modelled as `Except.error`). -/
def load_processed_files_log : LogState → Except Unit (List (String × LogEntry))
  | .absent => .ok []
  | .corrupted => .error ()
  | .valid es => .ok es

/-- `get_file_hash`: reads the file, raising when it cannot be opened. -/
def get_file_hash (f : IdxFile) : Except Unit String :=
  if f.readable then .ok f.content else .error ()

/-- `has_file_changed`: current hash differs from the logged hash (a file
never logged compares against `None` and therefore counts as changed);
propagates failures of the hash read or the log load. -/
def has_file_changed (f : IdxFile) (ls : LogState) : Except Unit Bool := do
  let h ← get_file_hash f
  let entries ← load_processed_files_log ls
  pure (some h != (entries.lookup f.name).map (fun e => e.hash))

/-- `mark_file_processed`: record the file's current hash and timestamp. -/
def mark_file_processed (t : String) (f : IdxFile) (ls : LogState) :
    Except Unit LogState := do
  let h ← get_file_hash f
  let entries ← load_processed_files_log ls
  pure (.valid (alistSet entries f.name ⟨h, t, f.name⟩))

/-- The mutable locals of one `process_files` invocation: the log file on
disk, `all_new_listings`, and the counters of the `results` dict. -/
structure RunState where
  logState : LogState
  all_new_listings : List ListingRecord
  processed_files : Nat
  skipped_files : Nat
  errors : Nat
deriving DecidableEq, Repr

/-- One iteration of the per-file loop of `process_files`: an exception
from the change check is caught and counted; an unchanged file is
skipped; otherwise the file is parsed, its records extended onto
`all_new_listings`, and the log updated (a failure after the extend is
caught, leaving the records collected but the file uncounted). -/
def process_one_file (t : String) (st : RunState) (f : IdxFile) : RunState :=
  match has_file_changed f st.logState with
  | .error _ => { st with errors := st.errors + 1 }
  | .ok false => { st with skipped_files := st.skipped_files + 1 }
  | .ok true =>
    let listings := parse_idx_file t f
    match mark_file_processed t f st.logState with
    | .error _ =>
        { st with all_new_listings := st.all_new_listings ++ listings
                  errors := st.errors + 1 }
    | .ok ls2 =>
        { st with all_new_listings := st.all_new_listings ++ listings
                  logState := ls2
                  processed_files := st.processed_files + 1 }

/-- What one `process_files` invocation leaves behind: the table, the
final loop state, and the `total_changes` counters of the result dict. -/
structure ProcessResult where
  store : Store
  state : RunState
  total_create : Nat
  total_update : Nat
  total_mark_sold : Nat
deriving DecidableEq, Repr

/-- `process_files`: read the snapshot once, run the per-file loop, and
apply the CRUD phases only when the unioned record set is non-empty. -/
def process_files (t : String) (files : List IdxFile) (ls : LogState)
    (store : Store) : ProcessResult :=
  let existing := get_existing_listings store
  let final := files.foldl (process_one_file t) ⟨ls, [], 0, 0, 0⟩
  if final.all_new_listings.isEmpty then
    { store := store, state := final
      total_create := 0, total_update := 0, total_mark_sold := 0 }
  else
    let changes := detect_changes final.all_new_listings existing
    { store := execute_crud_operations t changes store
      state := final
      total_create := changes.create.length
      total_update := changes.update.length
      total_mark_sold := changes.mark_sold.length }

/-! ### Verification infrastructure

Auxiliary functions (not part of the source) used to characterize the
writer's net effect: each phase acts on every row through a per-row
function determined by the row's key, plus a block of freshly appended
rows for create-keys that were absent from the store. -/

/-- The external identifiers of the rows of a store, in row order. -/
def keys (s : Store) : List String := s.map (fun r => r.listing_key)

/-- The last record in `L` bearing key `k`, if any (the occurrence that
wins a sequence of upserts or updates for the same key). -/
def lastWith (L : List ListingRecord) (k : String) : Option ListingRecord :=
  L.reverse.find? (fun l => l.ListingKey == k)

/-- Net effect of the create phase on a row already in the store. -/
def creNet (t : String) (L : List ListingRecord) (r : StoredListing) : StoredListing :=
  match lastWith L r.listing_key with
  | some l => mkRow t l
  | none => r

/-- Net effect of the update phase on a row. -/
def updNet (t : String) (L : List ListingRecord) (r : StoredListing) : StoredListing :=
  match lastWith L r.listing_key with
  | some l => updRow t l r
  | none => r

/-- Net effect of the mark-sold phase on a row. -/
def markNet (t : String) (K : List String) (r : StoredListing) : StoredListing :=
  if r.listing_key ∈ K then markRow t r else r

/-- The rows appended by the create phase: one per first occurrence of a
key not already in `ks`, carrying the data of the key's last occurrence. -/
def freshRows (t : String) : List ListingRecord → List String → Store
  | [], _ => []
  | l :: L, ks =>
    if l.ListingKey ∈ ks then freshRows t L ks
    else creNet t L (mkRow t l) :: freshRows t L (ks ++ [l.ListingKey])

/-- Net per-row effect of a whole `execute_crud_operations` run on a row
already present in the store. -/
def execNet (t : String) (c : ChangeSet) (r : StoredListing) : StoredListing :=
  markNet t c.mark_sold (updNet t c.update (creNet t c.create r))

/-- Net effect of the update and mark phases on a freshly created row. -/
def postCreateNet (t : String) (c : ChangeSet) (r : StoredListing) : StoredListing :=
  markNet t c.mark_sold (updNet t c.update r)

/-! ### Concrete sample data for witnesses and counterexamples -/

/-- A sample parsed record with key `k` and list price `p`. -/
def sampleRec (k p : String) : ListingRecord where
  ListingKey := k
  ListingID := some k
  ListPrice := some p
  StreetName := some "Main"
  City := some "100"
  StateOrProvince := some "MA"
  PostalCode := some "02101"
  BedroomsTotal := some "3"
  BathroomsTotalInteger := some "2"
  LivingArea := some "1500"
  ListingStatus := some "ACT"
  ModificationTimestamp := "T1"
  rawData := [("LIST_NO", some k), ("LIST_PRICE", some p)]
  fileSource := "idx_sf.txt"

/-- A stored blob agreeing with `sampleRec k p` on every comparison field. -/
def sampleBlob (p : String) : Obj :=
  [("ListPrice", .jstr p), ("ListingStatus", .jstr "ACT"),
   ("ModificationTimestamp", .jstr "T1")]

/-- A stored row with key `k`, price `p`, and blob `sampleBlob p`. -/
def sampleRow (k p : String) : StoredListing where
  listing_key := k
  listingid := some k
  listprice := some p
  streetname := some "Main"
  city := some "100"
  stateorprovince := some "MA"
  postalcode := some "02101"
  bedroomstotal := some "3"
  bathroomstotalinteger := some "2"
  livingarea := some "1500"
  latitude := none
  longitude := none
  listingstatus := some "ACT"
  modificationtimestamp := some "T1"
  data := sampleBlob p
  updated_at := "T0"

/-- A feed file for property type SF whose single row is listing `A`. -/
def fileSF : IdxFile where
  name := "idx_sf.txt"
  content := "HSF"
  rows := [[("LIST_NO", some "A"), ("LIST_PRICE", some "100"), ("STATUS", some "ACT")]]
  readable := true

/-- A feed file for property type MF whose single row is listing `B`. -/
def fileMF : IdxFile where
  name := "idx_mf.txt"
  content := "HMF"
  rows := [[("LIST_NO", some "B"), ("LIST_PRICE", some "200"), ("STATUS", some "ACT")]]
  readable := true

/-- A feed file holding one keyless row, one empty-key row, and listing `B`. -/
def fileMixed : IdxFile where
  name := "idx_cc.txt"
  content := "HCC"
  rows := [[("LIST_PRICE", some "10")],
           [("LIST_NO", some ""), ("LIST_PRICE", some "20")],
           [("LIST_NO", some "B"), ("LIST_PRICE", some "200")]]
  readable := true

/-- A processed-files log whose recorded hash for `idx_sf.txt` matches
`fileSF.content`, so `fileSF` counts as unchanged. -/
def logSF : LogState :=
  .valid [("idx_sf.txt", ⟨"HSF", "T0", "idx_sf.txt"⟩)]

/-! ### Association-list lemmas -/

theorem alistSet_lookup_self {α : Type} (d : List (String × α)) (k : String) (v : α) :
    (alistSet d k v).lookup k = some v := by
  induction d with
  | nil => simp [alistSet]
  | cons p d ih =>
    rcases p with ⟨a, b⟩
    by_cases h : a = k
    · simp [alistSet, h]
    · have h1 : (a == k) = false := by simp [h]
      have h2 : (k == a) = false := by simp; exact fun hc => h hc.symm
      simp [alistSet, h1, List.lookup_cons, h2, ih]

theorem alistSet_lookup_ne {α : Type} (d : List (String × α)) (k : String) (v : α)
    (k' : String) (h : k' ≠ k) : (alistSet d k v).lookup k' = d.lookup k' := by
  induction d with
  | nil =>
    have h2 : (k' == k) = false := by simp [h]
    simp [alistSet, List.lookup_cons, h2]
  | cons p d ih =>
    rcases p with ⟨a, b⟩
    by_cases ha : a = k
    · subst ha
      have h2 : (k' == a) = false := by simp [h]
      simp [alistSet, List.lookup_cons, h2]
    · have h1 : (a == k) = false := by simp [ha]
      by_cases hk' : k' = a
      · subst hk'
        simp [alistSet, h1, List.lookup_cons]
      · have h3 : (k' == a) = false := by simp [hk']
        simp [alistSet, h1, List.lookup_cons, h3, ih]

theorem alistSet_of_lookup_eq {α : Type} (d : List (String × α)) (k : String) (v : α)
    (h : d.lookup k = some v) : alistSet d k v = d := by
  induction d with
  | nil => simp at h
  | cons p d ih =>
    rcases p with ⟨a, b⟩
    by_cases hp : a = k
    · subst hp
      simp only [List.lookup_cons_self, Option.some.injEq] at h
      simp [alistSet, h]
    · have h1 : (k == a) = false := by simp; exact fun hc => hp hc.symm
      have h2 : (a == k) = false := by simp [hp]
      simp only [List.lookup_cons, h1] at h
      simp [alistSet, h2, ih h]

/-! ### Row-level algebra -/

theorem mkRow_key (t : String) (l : ListingRecord) :
    (mkRow t l).listing_key = l.ListingKey := rfl

theorem updRow_key (t : String) (l : ListingRecord) (r : StoredListing) :
    (updRow t l r).listing_key = r.listing_key := rfl

theorem markRow_key (t : String) (r : StoredListing) :
    (markRow t r).listing_key = r.listing_key := rfl

theorem updRow_updRow (t t' : String) (l l' : ListingRecord) (r : StoredListing) :
    updRow t l (updRow t' l' r) = updRow t l r := rfl

theorem updRow_markRow (t t' : String) (l : ListingRecord) (r : StoredListing) :
    updRow t l (markRow t' r) = updRow t l r := rfl

theorem objConcat_sold_patch (d : Obj) (t : String) :
    objConcat d (sold_patch t) =
      alistSet (alistSet d "auto_marked_sold" (.jbool true)) "marked_sold_at" (.jstr t) := rfl

theorem sold_patch_keys_ne : "auto_marked_sold" ≠ "marked_sold_at" := by decide

theorem objConcat_sold_patch_idem (d : Obj) (t : String) :
    objConcat (objConcat d (sold_patch t)) (sold_patch t) = objConcat d (sold_patch t) := by
  rw [objConcat_sold_patch, objConcat_sold_patch]
  have h1 : (alistSet (alistSet d "auto_marked_sold" (JVal.jbool true))
      "marked_sold_at" (JVal.jstr t)).lookup "auto_marked_sold" = some (JVal.jbool true) := by
    rw [alistSet_lookup_ne _ _ _ _ sold_patch_keys_ne]
    exact alistSet_lookup_self _ _ _
  rw [alistSet_of_lookup_eq _ _ _ h1,
    alistSet_of_lookup_eq _ _ _ (alistSet_lookup_self _ _ _)]

theorem markRow_markRow (t : String) (r : StoredListing) :
    markRow t (markRow t r) = markRow t r := by
  simp [markRow, objConcat_sold_patch_idem]

/-! ### lastWith lemmas -/

theorem lastWith_nil (k : String) : lastWith [] k = none := rfl

theorem lastWith_cons (l : ListingRecord) (L : List ListingRecord) (k : String) :
    lastWith (l :: L) k =
      (lastWith L k).or (if l.ListingKey == k then some l else none) := by
  simp only [lastWith, List.reverse_cons, List.find?_append]
  congr 1
  cases h : l.ListingKey == k <;> simp [List.find?, h]

theorem lastWith_key {L : List ListingRecord} {k : String} {l : ListingRecord}
    (h : lastWith L k = some l) : l.ListingKey = k := by
  have := List.find?_some h
  simpa using this

theorem lastWith_mem {L : List ListingRecord} {k : String} {l : ListingRecord}
    (h : lastWith L k = some l) : l ∈ L := by
  have := List.mem_of_find?_eq_some h
  simpa using this

theorem lastWith_eq_none {L : List ListingRecord} {k : String}
    (h : ∀ l ∈ L, l.ListingKey ≠ k) : lastWith L k = none := by
  rw [lastWith, List.find?_eq_none]
  intro a ha
  simpa using h a (by simpa using ha)

theorem lastWith_isSome {L : List ListingRecord} {k : String} {l : ListingRecord}
    (hmem : l ∈ L) (hk : l.ListingKey = k) : ∃ x, lastWith L k = some x := by
  rcases h : lastWith L k with _ | x
  · rw [lastWith, List.find?_eq_none] at h
    exact absurd (by simp [hk]) (h l (by simpa using hmem))
  · exact ⟨x, rfl⟩

theorem lastWith_cons_ne {l : ListingRecord} {L : List ListingRecord} {k : String}
    (h : l.ListingKey ≠ k) : lastWith (l :: L) k = lastWith L k := by
  have hb : (l.ListingKey == k) = false := by simp [h]
  simp [lastWith_cons, hb]

/-! ### Net-function key preservation -/

theorem creNet_key (t : String) (L : List ListingRecord) (r : StoredListing) :
    (creNet t L r).listing_key = r.listing_key := by
  rcases h : lastWith L r.listing_key with _ | l
  · simp [creNet, h]
  · simp [creNet, h, mkRow_key, lastWith_key h]

theorem updNet_key (t : String) (L : List ListingRecord) (r : StoredListing) :
    (updNet t L r).listing_key = r.listing_key := by
  rcases h : lastWith L r.listing_key with _ | l <;> simp [updNet, h, updRow_key]

theorem markNet_key (t : String) (K : List String) (r : StoredListing) :
    (markNet t K r).listing_key = r.listing_key := by
  by_cases h : r.listing_key ∈ K <;> simp [markNet, h, markRow_key]

theorem execNet_key (t : String) (c : ChangeSet) (r : StoredListing) :
    (execNet t c r).listing_key = r.listing_key := by
  simp [execNet, markNet_key, updNet_key, creNet_key]

theorem postCreateNet_key (t : String) (c : ChangeSet) (r : StoredListing) :
    (postCreateNet t c r).listing_key = r.listing_key := by
  simp [postCreateNet, markNet_key, updNet_key]

/-! ### Phase characterizations -/

theorem upsert_of_mem {t : String} {l : ListingRecord} {s : Store}
    (h : l.ListingKey ∈ keys s) :
    upsertListing t l s =
      s.map (fun r => if r.listing_key == l.ListingKey then mkRow t l else r) := by
  rw [upsertListing, if_pos]
  rw [List.any_eq_true]
  simp only [keys, List.mem_map] at h
  rcases h with ⟨r, hr, hk⟩
  exact ⟨r, hr, by simp [hk]⟩

theorem upsert_of_not_mem {t : String} {l : ListingRecord} {s : Store}
    (h : l.ListingKey ∉ keys s) :
    upsertListing t l s = s ++ [mkRow t l] := by
  rw [upsertListing, if_neg]
  rw [List.any_eq_true]
  rintro ⟨r, hr, hk⟩
  exact h (by simp only [keys, List.mem_map]; exact ⟨r, hr, by simpa using hk⟩)

theorem creNet_cons_eq (t : String) (l : ListingRecord) (L : List ListingRecord)
    (r : StoredListing) (h : r.listing_key = l.ListingKey) :
    creNet t L (mkRow t l) = creNet t (l :: L) r := by
  simp only [creNet, mkRow_key, h, lastWith_cons, beq_self_eq_true, if_pos]
  rcases lastWith L l.ListingKey with _ | x <;> simp

theorem creNet_cons_ne (t : String) (l : ListingRecord) (L : List ListingRecord)
    (r : StoredListing) (h : r.listing_key ≠ l.ListingKey) :
    creNet t (l :: L) r = creNet t L r := by
  rw [creNet, creNet, lastWith_cons_ne (fun hc => h hc.symm)]

theorem insert_listings_spec (t : String) (L : List ListingRecord) (s : Store) :
    insert_listings t L s = s.map (creNet t L) ++ freshRows t L (keys s) := by
  induction L generalizing s with
  | nil =>
    simp only [insert_listings, List.foldl_nil, freshRows, List.append_nil]
    rw [List.map_congr_left (fun r _ => by simp [creNet, lastWith_nil] : ∀ r ∈ s, creNet t [] r = id r)]
    simp
  | cons l L ih =>
    rw [insert_listings, List.foldl_cons]
    by_cases hk : l.ListingKey ∈ keys s
    · rw [upsert_of_mem hk]
      have hkeys : keys (s.map (fun r => if r.listing_key == l.ListingKey then mkRow t l else r)) = keys s := by
        simp only [keys, List.map_map]
        refine List.map_congr_left (fun r _ => ?_)
        by_cases h : r.listing_key = l.ListingKey <;> simp [Function.comp, h, mkRow_key]
      have := ih (s := s.map (fun r => if r.listing_key == l.ListingKey then mkRow t l else r))
      rw [insert_listings] at this
      rw [this, hkeys, List.map_map]
      have hmap : s.map ((creNet t L) ∘ (fun r => if r.listing_key == l.ListingKey then mkRow t l else r))
          = s.map (creNet t (l :: L)) := by
        refine List.map_congr_left (fun r _ => ?_)
        simp only [Function.comp_apply]
        by_cases h : r.listing_key = l.ListingKey
        · rw [if_pos (by simp [h])]
          exact creNet_cons_eq t l L r h
        · rw [if_neg (by simp [h])]
          exact (creNet_cons_ne t l L r h).symm
      rw [hmap, freshRows, if_pos hk]
    · rw [upsert_of_not_mem hk]
      have := ih (s := s ++ [mkRow t l])
      rw [insert_listings] at this
      rw [this]
      have hkeys : keys (s ++ [mkRow t l]) = keys s ++ [l.ListingKey] := by
        simp [keys, mkRow_key]
      rw [hkeys, List.map_append]
      have hmap : s.map (creNet t L) = s.map (creNet t (l :: L)) := by
        refine List.map_congr_left (fun r hr => ?_)
        have h : r.listing_key ≠ l.ListingKey := fun hc => hk (hc ▸ List.mem_map_of_mem _ hr)
        exact (creNet_cons_ne t l L r h).symm
      rw [hmap, freshRows, if_neg hk]
      simp [creNet_cons_eq t l L (mkRow t l) (mkRow_key t l)]

theorem updNet_cons_eq (t : String) (l : ListingRecord) (L : List ListingRecord)
    (r : StoredListing) (h : r.listing_key = l.ListingKey) :
    updNet t L (updRow t l r) = updNet t (l :: L) r := by
  simp only [updNet, updRow_key, h, lastWith_cons, beq_self_eq_true, if_pos]
  rcases lastWith L l.ListingKey with _ | x <;> simp [updRow_updRow]

theorem updNet_cons_ne (t : String) (l : ListingRecord) (L : List ListingRecord)
    (r : StoredListing) (h : r.listing_key ≠ l.ListingKey) :
    updNet t (l :: L) r = updNet t L r := by
  rw [updNet, updNet, lastWith_cons_ne (fun hc => h hc.symm)]

theorem update_listings_spec (t : String) (L : List ListingRecord) (s : Store) :
    update_listings t L s = s.map (updNet t L) := by
  induction L generalizing s with
  | nil =>
    simp only [update_listings, List.foldl_nil]
    symm
    rw [List.map_congr_left
      (fun r _ => by simp [updNet, lastWith_nil] : ∀ r ∈ s, updNet t [] r = id r)]
    simp
  | cons l L ih =>
    rw [update_listings, List.foldl_cons]
    have := ih (s := updateListing t l s)
    rw [update_listings] at this
    rw [this, updateListing, List.map_map]
    refine List.map_congr_left (fun r _ => ?_)
    simp only [Function.comp_apply]
    by_cases h : r.listing_key = l.ListingKey
    · rw [if_pos (by simp [h])]
      exact updNet_cons_eq t l L r h
    · rw [if_neg (by simp [h])]
      exact (updNet_cons_ne t l L r h).symm

theorem markNet_cons_eq (t : String) (k : String) (K : List String)
    (r : StoredListing) (h : r.listing_key = k) :
    markNet t K (markRow t r) = markNet t (k :: K) r := by
  by_cases hK : r.listing_key ∈ K
  · rw [markNet, if_pos (by rw [markRow_key]; exact hK), markRow_markRow,
      markNet, if_pos (List.mem_cons_of_mem _ hK)]
  · rw [markNet, if_neg (by rw [markRow_key]; exact hK),
      markNet, if_pos (by rw [h]; exact List.mem_cons_self _ _)]

theorem markNet_cons_ne (t : String) (k : String) (K : List String)
    (r : StoredListing) (h : r.listing_key ≠ k) :
    markNet t (k :: K) r = markNet t K r := by
  rw [markNet, markNet]
  by_cases hK : r.listing_key ∈ K
  · rw [if_pos (List.mem_cons_of_mem _ hK), if_pos hK]
  · rw [if_neg (by simp [h, hK]), if_neg hK]

theorem mark_listings_sold_spec (t : String) (K : List String) (s : Store) :
    mark_listings_sold t K s = s.map (markNet t K) := by
  induction K generalizing s with
  | nil =>
    simp only [mark_listings_sold, List.foldl_nil]
    symm
    rw [List.map_congr_left
      (fun r _ => by simp [markNet] : ∀ r ∈ s, markNet t [] r = id r)]
    simp
  | cons k K ih =>
    rw [mark_listings_sold, List.foldl_cons]
    have := ih (s := markSoldKey t k s)
    rw [mark_listings_sold] at this
    rw [this, markSoldKey, List.map_map]
    refine List.map_congr_left (fun r _ => ?_)
    simp only [Function.comp_apply]
    by_cases h : r.listing_key = k
    · rw [if_pos (by simp [h])]
      exact markNet_cons_eq t k K r h
    · rw [if_neg (by simp [h])]
      exact (markNet_cons_ne t k K r h).symm

theorem execute_crud_operations_spec (t : String) (c : ChangeSet) (s : Store) :
    execute_crud_operations t c s =
      s.map (execNet t c) ++ (freshRows t c.create (keys s)).map (postCreateNet t c) := by
  rw [execute_crud_operations, insert_listings_spec, update_listings_spec,
    mark_listings_sold_spec]
  simp only [List.map_append, List.map_map]
  rfl

/-! ### Key sets of the writer's output -/

theorem freshRows_key_mem (t : String) (L : List ListingRecord) (ks : List String) :
    ∀ r ∈ freshRows t L ks, r.listing_key ∉ ks := by
  induction L generalizing ks with
  | nil => intro r hr; simp [freshRows] at hr
  | cons l L ih =>
    intro r hr
    rw [freshRows] at hr
    by_cases h : l.ListingKey ∈ ks
    · rw [if_pos h] at hr
      exact ih ks r hr
    · rw [if_neg h] at hr
      rcases List.mem_cons.mp hr with h1 | h1
      · rw [h1, creNet_key, mkRow_key]
        exact h
      · intro hc
        exact ih (ks ++ [l.ListingKey]) r h1 (List.mem_append_left _ hc)

theorem keys_append_freshRows_nodup (t : String) (L : List ListingRecord)
    (ks : List String) (h : ks.Nodup) : (ks ++ keys (freshRows t L ks)).Nodup := by
  induction L generalizing ks with
  | nil => simpa [freshRows, keys]
  | cons l L ih =>
    rw [freshRows]
    by_cases hk : l.ListingKey ∈ ks
    · rw [if_pos hk]
      exact ih ks h
    · rw [if_neg hk]
      have h2 : (ks ++ [l.ListingKey]).Nodup := by
        simp [List.nodup_append, h, hk]
      have := ih (ks ++ [l.ListingKey]) h2
      simp only [keys, List.map_cons, creNet_key, mkRow_key]
      simpa [List.append_assoc] using this

theorem keys_map_execNet (t : String) (c : ChangeSet) (s : Store) :
    keys (s.map (execNet t c)) = keys s := by
  simp only [keys, List.map_map]
  exact List.map_congr_left (fun r _ => by simp [Function.comp_apply, execNet_key])

theorem keys_map_postCreateNet (t : String) (c : ChangeSet) (s : Store) :
    keys (s.map (postCreateNet t c)) = keys s := by
  simp only [keys, List.map_map]
  exact List.map_congr_left (fun r _ => by simp [Function.comp_apply, postCreateNet_key])

theorem keys_execute_crud_operations (t : String) (c : ChangeSet) (s : Store) :
    keys (execute_crud_operations t c s) =
      keys s ++ keys (freshRows t c.create (keys s)) := by
  rw [execute_crud_operations_spec]
  simp only [keys, List.map_append]
  rw [← keys, ← keys, ← keys, ← keys, keys_map_execNet, keys_map_postCreateNet]

/-! ### Support for idempotence -/

theorem mem_keys_freshRows (t : String) (L : List ListingRecord) (ks : List String) :
    ∀ l ∈ L, l.ListingKey ∈ ks ++ keys (freshRows t L ks) := by
  induction L generalizing ks with
  | nil => intro l hl; simp at hl
  | cons l0 L ih =>
    intro l hl
    rw [freshRows]
    by_cases h : l0.ListingKey ∈ ks
    · rw [if_pos h]
      rcases List.mem_cons.mp hl with h1 | h1
      · exact List.mem_append_left _ (h1 ▸ h)
      · exact ih ks l h1
    · rw [if_neg h]
      simp only [keys, List.map_cons, creNet_key, mkRow_key]
      rcases List.mem_cons.mp hl with h1 | h1
      · rw [h1]
        exact List.mem_append_right _ (List.mem_cons_self _ _)
      · have := ih (ks ++ [l0.ListingKey]) l h1
        rcases List.mem_append.mp this with h2 | h2
        · rcases List.mem_append.mp h2 with h3 | h3
          · exact List.mem_append_left _ h3
          · simp only [List.mem_singleton] at h3
            exact List.mem_append_right _ (h3 ▸ List.mem_cons_self _ _)
        · exact List.mem_append_right _ (List.mem_cons_of_mem _ h2)

theorem freshRows_eq_nil (t : String) (L : List ListingRecord) (ks : List String)
    (h : ∀ l ∈ L, l.ListingKey ∈ ks) : freshRows t L ks = [] := by
  induction L generalizing ks with
  | nil => rfl
  | cons l L ih =>
    rw [freshRows, if_pos (h l (List.mem_cons_self _ _))]
    exact ih ks (fun x hx => h x (List.mem_cons_of_mem _ hx))

theorem freshRows_elem_spec (t : String) (L : List ListingRecord) (ks : List String) :
    ∀ r ∈ freshRows t L ks, ∃ l, lastWith L r.listing_key = some l ∧ r = mkRow t l := by
  induction L generalizing ks with
  | nil => intro r hr; simp [freshRows] at hr
  | cons l0 L ih =>
    intro r hr
    have hout := freshRows_key_mem t (l0 :: L) ks r hr
    rw [freshRows] at hr
    by_cases h : l0.ListingKey ∈ ks
    · rw [if_pos h] at hr
      rcases ih ks r hr with ⟨l, hl, he⟩
      have hne : r.listing_key ≠ l0.ListingKey := fun hc => hout (hc ▸ h)
      exact ⟨l, by rw [lastWith_cons_ne (fun hc => hne hc.symm)]; exact hl, he⟩
    · rw [if_neg h] at hr
      rcases List.mem_cons.mp hr with h1 | h1
      · subst h1
        rcases hL : lastWith L l0.ListingKey with _ | x
        · refine ⟨l0, ?_, by simp [creNet, creNet_key, mkRow_key, hL]⟩
          rw [creNet_key, mkRow_key, lastWith_cons, hL]
          simp
        · refine ⟨x, ?_, by simp [creNet, creNet_key, mkRow_key, hL]⟩
          rw [creNet_key, mkRow_key, lastWith_cons, hL]
          simp
      · rcases ih (ks ++ [l0.ListingKey]) r h1 with ⟨l, hl, he⟩
        have hout2 := freshRows_key_mem t L (ks ++ [l0.ListingKey]) r h1
        have hne : r.listing_key ≠ l0.ListingKey := by
          intro hc
          exact hout2 (List.mem_append_right _ (by simp [hc]))
        exact ⟨l, by rw [lastWith_cons_ne (fun hc => hne hc.symm)]; exact hl, he⟩

theorem creNet_none {t : String} {L : List ListingRecord} {r : StoredListing}
    (h : lastWith L r.listing_key = none) : creNet t L r = r := by
  rw [creNet, h]

theorem creNet_some {t : String} {L : List ListingRecord} {r : StoredListing}
    {l : ListingRecord} (h : lastWith L r.listing_key = some l) :
    creNet t L r = mkRow t l := by
  rw [creNet, h]

theorem updNet_none {t : String} {L : List ListingRecord} {r : StoredListing}
    (h : lastWith L r.listing_key = none) : updNet t L r = r := by
  rw [updNet, h]

theorem updNet_some {t : String} {L : List ListingRecord} {r : StoredListing}
    {l : ListingRecord} (h : lastWith L r.listing_key = some l) :
    updNet t L r = updRow t l r := by
  rw [updNet, h]

theorem markNet_mem {t : String} {K : List String} {r : StoredListing}
    (h : r.listing_key ∈ K) : markNet t K r = markRow t r := by
  rw [markNet, if_pos h]

theorem markNet_not_mem {t : String} {K : List String} {r : StoredListing}
    (h : r.listing_key ∉ K) : markNet t K r = r := by
  rw [markNet, if_neg h]

theorem execNet_of_lastWith_create {t : String} {c : ChangeSet} {l : ListingRecord}
    (x : StoredListing) (h : lastWith c.create x.listing_key = some l) :
    execNet t c x = postCreateNet t c (mkRow t l) := by
  rw [execNet, creNet_some h]
  rfl

theorem execNet_idem (t : String) (c : ChangeSet) (x : StoredListing) :
    execNet t c (execNet t c x) = execNet t c x := by
  rcases hc : lastWith c.create x.listing_key with _ | l
  · -- no create for this key: the create phase is the identity on both passes
    rcases hu : lastWith c.update x.listing_key with _ | u
    · -- no update either: only the mark phase acts
      have h1 : execNet t c x = markNet t c.mark_sold x := by
        rw [execNet, creNet_none hc, updNet_none hu]
      rw [h1]
      by_cases hm : x.listing_key ∈ c.mark_sold
      · rw [markNet_mem hm, execNet,
          creNet_none (by rw [markRow_key]; exact hc),
          updNet_none (by rw [markRow_key]; exact hu),
          markNet_mem (by rw [markRow_key]; exact hm), markRow_markRow]
      · rw [markNet_not_mem hm, execNet, creNet_none hc, updNet_none hu,
          markNet_not_mem hm]
    · -- update wins over the absent create
      have h1 : execNet t c x = markNet t c.mark_sold (updRow t u x) := by
        rw [execNet, creNet_none hc, updNet_some hu]
      rw [h1]
      by_cases hm : x.listing_key ∈ c.mark_sold
      · rw [markNet_mem (by rw [updRow_key]; exact hm), execNet,
          creNet_none (by rw [markRow_key, updRow_key]; exact hc),
          updNet_some (by rw [markRow_key, updRow_key]; exact hu),
          updRow_markRow, updRow_updRow,
          markNet_mem (by rw [updRow_key]; exact hm)]
      · rw [markNet_not_mem (by rw [updRow_key]; exact hm), execNet,
          creNet_none (by rw [updRow_key]; exact hc),
          updNet_some (by rw [updRow_key]; exact hu), updRow_updRow,
          markNet_not_mem (by rw [updRow_key]; exact hm)]
  · -- a create exists for this key: both passes rebuild the same row from it
    have h1 := execNet_of_lastWith_create (t := t) (c := c) x hc
    have h2 : lastWith c.create (execNet t c x).listing_key = some l := by
      rw [execNet_key]; exact hc
    rw [execNet_of_lastWith_create _ h2, h1]

theorem execNet_postCreateNet {t : String} {c : ChangeSet} {r : StoredListing}
    (l : ListingRecord) (hl : lastWith c.create r.listing_key = some l)
    (he : r = mkRow t l) :
    execNet t c (postCreateNet t c r) = postCreateNet t c r := by
  have h2 : lastWith c.create (postCreateNet t c r).listing_key = some l := by
    rw [postCreateNet_key]; exact hl
  rw [execNet_of_lastWith_create _ h2, ← he]

/-! ### Characterization of detect_changes -/

theorem detect_changes_fold (E : List (String × ExistingEntry))
    (NL : List ListingRecord) (a b : List ListingRecord) :
    NL.foldl
      (fun (cu : List ListingRecord × List ListingRecord) l =>
        match E.lookup l.ListingKey with
        | none => (cu.1 ++ [l], cu.2)
        | some e => if has_changes l e.data then (cu.1, cu.2 ++ [l]) else cu)
      (a, b)
    = (a ++ NL.filter (fun l => (E.lookup l.ListingKey).isNone),
       b ++ NL.filter (fun l =>
         match E.lookup l.ListingKey with
         | some e => has_changes l e.data
         | none => false)) := by
  induction NL generalizing a b with
  | nil => simp
  | cons l NL ih =>
    rw [List.foldl_cons]
    rcases hE : E.lookup l.ListingKey with _ | e
    · simp only [hE]
      rw [ih]
      simp [List.filter_cons, hE]
    · by_cases hch : has_changes l e.data
      · simp only [hE, if_pos hch]
        rw [ih]
        simp [List.filter_cons, hE, hch]
      · simp only [hE, if_neg hch]
        rw [ih]
        simp only [List.filter_cons, hE, Option.isNone_some, Bool.false_eq_true,
          if_false]
        simp [hE, hch]

theorem detect_changes_create (NL : List ListingRecord)
    (E : List (String × ExistingEntry)) :
    (detect_changes NL E).create =
      NL.filter (fun l => (E.lookup l.ListingKey).isNone) := by
  rw [detect_changes]
  simp only [detect_changes_fold E NL [] []]
  simp

theorem detect_changes_update (NL : List ListingRecord)
    (E : List (String × ExistingEntry)) :
    (detect_changes NL E).update =
      NL.filter (fun l =>
        match E.lookup l.ListingKey with
        | some e => has_changes l e.data
        | none => false) := by
  rw [detect_changes]
  simp only [detect_changes_fold E NL [] []]
  simp

theorem detect_changes_mark_sold (NL : List ListingRecord)
    (E : List (String × ExistingEntry)) :
    (detect_changes NL E).mark_sold =
      (E.map (fun p => p.1)).filter
        (fun k => !((NL.map (fun l => l.ListingKey)).contains k)) := by
  rw [detect_changes]

/-! ### Claim theorems -/

/-- C1: Key-uniqueness is preserved by reconciliation: for every ChangeSet
and every starting store whose rows carry pairwise distinct external
identifiers (`listing_key`), after `execute_crud_operations` applies the
create phase (upsert-on-conflict keyed on `listing_key`), the update
phase, and the mark-inactive phase — the latter two only modifying
existing rows in place — the rows still carry pairwise distinct external
identifiers. -/
theorem crud_preserves_key_uniqueness (t : String) (c : ChangeSet) (s : Store)
    (h : (keys s).Nodup) : (keys (execute_crud_operations t c s)).Nodup := by
  rw [keys_execute_crud_operations]
  exact keys_append_freshRows_nodup t c.create (keys s) h

/-- Witness for C1 at a concrete store and ChangeSet exercising all three
phases. -/
theorem crud_preserves_key_uniqueness_witness :
    (keys [sampleRow "A" "100", sampleRow "C" "300"]).Nodup ∧
      (keys (execute_crud_operations "T2"
        ⟨[sampleRec "B" "200"], [sampleRec "A" "150"], ["C"]⟩
        [sampleRow "A" "100", sampleRow "C" "300"])).Nodup :=
  ⟨by decide,
   crud_preserves_key_uniqueness "T2"
     ⟨[sampleRec "B" "200"], [sampleRec "A" "150"], ["C"]⟩
     [sampleRow "A" "100", sampleRow "C" "300"] (by decide)⟩

/-- C2: The Reconciliation Writer is idempotent: with the clock fixed at
`t` (the source stamps `now()` into `updated_at` and the sold annotation;
time is the writer's only impure input), running
`execute_crud_operations` twice in succession with the same ChangeSet
from any store produces exactly the same table as running it once. -/
theorem crud_idempotent (t : String) (c : ChangeSet) (s : Store) :
    execute_crud_operations t c (execute_crud_operations t c s) =
      execute_crud_operations t c s := by
  rw [execute_crud_operations_spec t c (execute_crud_operations t c s)]
  have hnil : freshRows t c.create (keys (execute_crud_operations t c s)) = [] := by
    apply freshRows_eq_nil
    intro l hl
    rw [keys_execute_crud_operations]
    exact mem_keys_freshRows t c.create (keys s) l hl
  rw [hnil]
  simp only [List.map_nil, List.append_nil]
  rw [execute_crud_operations_spec t c s, List.map_append, List.map_map, List.map_map]
  congr 1
  · exact List.map_congr_left (fun x _ => by
      simp only [Function.comp_apply]
      exact execNet_idem t c x)
  · refine List.map_congr_left (fun r hr => ?_)
    rcases freshRows_elem_spec t c.create (keys s) r hr with ⟨l, hl, he⟩
    simp only [Function.comp_apply]
    exact execNet_postCreateNet l hl he

/-- C4 counterexample: a record present in both the new set and the
snapshot with no comparison-field difference lands in neither `create`
nor `update`, so the identifiers of the new set are not exhausted by
the two lists and the claimed partition is not total. -/
theorem classification_not_total_counterexample :
    ("A" ∈ [sampleRec "A" "100"].map (fun l => l.ListingKey)) ∧
    (detect_changes [sampleRec "A" "100"] [("A", ⟨sampleBlob "100", "T0"⟩)]).create = [] ∧
    (detect_changes [sampleRec "A" "100"] [("A", ⟨sampleBlob "100", "T0"⟩)]).update = [] :=
  ⟨by decide, by decide, by decide⟩

/-- C4 (amended): classification is a disjoint partial partition: a new
identifier is in `create` iff absent from the snapshot, in `update` iff
present in the snapshot with a changed stored blob (identifiers present
in both with no change land in no list), a snapshot identifier is in
`mark_sold` iff absent from the new set, and no identifier is in two of
the three lists. -/
theorem classification_partition (NL : List ListingRecord)
    (E : List (String × ExistingEntry)) (k : String) :
    ((∃ l ∈ (detect_changes NL E).create, l.ListingKey = k) ↔
      ((∃ l ∈ NL, l.ListingKey = k) ∧ E.lookup k = none))
    ∧ ((∃ l ∈ (detect_changes NL E).update, l.ListingKey = k) ↔
      (∃ l ∈ NL, l.ListingKey = k ∧
        ∃ e, E.lookup k = some e ∧ has_changes l e.data))
    ∧ (k ∈ (detect_changes NL E).mark_sold ↔
      (k ∈ E.map (fun p => p.1) ∧ ∀ l ∈ NL, l.ListingKey ≠ k))
    ∧ ¬((∃ l ∈ (detect_changes NL E).create, l.ListingKey = k) ∧
        (∃ l ∈ (detect_changes NL E).update, l.ListingKey = k))
    ∧ ¬((∃ l ∈ (detect_changes NL E).create, l.ListingKey = k) ∧
        k ∈ (detect_changes NL E).mark_sold)
    ∧ ¬((∃ l ∈ (detect_changes NL E).update, l.ListingKey = k) ∧
        k ∈ (detect_changes NL E).mark_sold) := by
  have hc : (∃ l ∈ (detect_changes NL E).create, l.ListingKey = k) ↔
      ((∃ l ∈ NL, l.ListingKey = k) ∧ E.lookup k = none) := by
    rw [detect_changes_create]
    constructor
    · rintro ⟨l, hl, hk⟩
      rw [List.mem_filter] at hl
      refine ⟨⟨l, hl.1, hk⟩, ?_⟩
      have := hl.2
      rw [hk] at this
      simpa using this
    · rintro ⟨⟨l, hl, hk⟩, hE⟩
      exact ⟨l, List.mem_filter.mpr ⟨hl, by rw [hk, hE]; rfl⟩, hk⟩
  have hu : (∃ l ∈ (detect_changes NL E).update, l.ListingKey = k) ↔
      (∃ l ∈ NL, l.ListingKey = k ∧
        ∃ e, E.lookup k = some e ∧ has_changes l e.data) := by
    rw [detect_changes_update]
    constructor
    · rintro ⟨l, hl, hk⟩
      rw [List.mem_filter] at hl
      have h2 := hl.2
      rw [hk] at h2
      rcases hE : E.lookup k with _ | e
      · rw [hE] at h2
        simp at h2
      · rw [hE] at h2
        exact ⟨l, hl.1, hk, e, rfl, h2⟩
    · rintro ⟨l, hl, hk, e, hE, hch⟩
      refine ⟨l, List.mem_filter.mpr ⟨hl, ?_⟩, hk⟩
      rw [hk, hE]
      exact hch
  have hm : k ∈ (detect_changes NL E).mark_sold ↔
      (k ∈ E.map (fun p => p.1) ∧ ∀ l ∈ NL, l.ListingKey ≠ k) := by
    rw [detect_changes_mark_sold, List.mem_filter]
    constructor
    · rintro ⟨h1, h2⟩
      refine ⟨h1, fun l hl hk => ?_⟩
      rw [Bool.not_eq_true', List.contains_eq_any_beq, List.any_eq_false] at h2
      exact h2 l.ListingKey (List.mem_map_of_mem _ hl) (by simp [hk])
    · rintro ⟨h1, h2⟩
      refine ⟨h1, ?_⟩
      rw [Bool.not_eq_true', List.contains_eq_any_beq, List.any_eq_false]
      intro x hx
      rcases List.mem_map.mp hx with ⟨l, hl, hlx⟩
      simpa [hlx] using fun hc => h2 l hl (by rw [hlx, hc])
  refine ⟨hc, hu, hm, ?_, ?_, ?_⟩
  · rintro ⟨h1, h2⟩
    rcases hc.mp h1 with ⟨_, hnone⟩
    rcases hu.mp h2 with ⟨l, _, _, e, hsome, _⟩
    rw [hnone] at hsome
    cases hsome
  · rintro ⟨h1, h2⟩
    rcases hc.mp h1 with ⟨⟨l, hl, hk⟩, _⟩
    exact (hm.mp h2).2 l hl hk
  · rintro ⟨h1, h2⟩
    rcases hu.mp h1 with ⟨l, hl, hk, _⟩
    exact (hm.mp h2).2 l hl hk

theorem filter_key_nil (s : Store) (k : String) (h : k ∉ keys s) :
    s.filter (fun r => r.listing_key == k) = [] := by
  rw [List.filter_eq_nil_iff]
  intro r hr
  simp only [beq_iff_eq]
  exact fun hc => h (hc ▸ List.mem_map_of_mem _ hr)

theorem filter_key_single (s : Store) (k : String) (h : (keys s).Nodup)
    (r0 : StoredListing) (hr0 : r0 ∈ s) (hk : r0.listing_key = k) :
    s.filter (fun r => r.listing_key == k) = [r0] := by
  induction s with
  | nil => cases hr0
  | cons a s ih =>
    rw [keys, List.map_cons, List.nodup_cons] at h
    rcases List.mem_cons.mp hr0 with h1 | h1
    · subst h1
      rw [List.filter_cons, if_pos (by simp [hk])]
      rw [filter_key_nil s k (fun hc => h.1 (hk ▸ hc))]
    · have hak : a.listing_key ≠ k := by
        intro hc
        exact h.1 (hc ▸ hk ▸ List.mem_map_of_mem _ h1)
      rw [List.filter_cons, if_neg (by simp [hak])]
      exact ih h.2 h1

/-- C5 counterexample: a new record set holding the same identifier twice
is classified occurrence by occurrence — no dedup happens before
classification, and the resulting ChangeSet lists the identifier twice
(here as two creates). -/
theorem dedup_before_classification_counterexample :
    (detect_changes [sampleRec "X" "100", sampleRec "X" "150"] []).create
      = [sampleRec "X" "100", sampleRec "X" "150"] ∧
    ((detect_changes [sampleRec "X" "100", sampleRec "X" "150"] []).create.map
      (fun l => l.ListingKey)) = ["X", "X"] :=
  ⟨by decide, by decide⟩

/-- C5 (amended): duplicates survive classification (the ChangeSet can
list an identifier once per occurrence), and uniqueness is restored only
at the Writer: the create phase's upsert makes the last occurrence in
processing order win, leaving exactly one stored row for the duplicated
key, built from that last occurrence. -/
theorem create_upsert_last_wins (t : String) (L : List ListingRecord) (s : Store)
    (k : String) (l : ListingRecord) (h : (keys s).Nodup)
    (hl : lastWith L k = some l) :
    (insert_listings t L s).filter (fun r => r.listing_key == k) = [mkRow t l] := by
  have hk := lastWith_key hl
  rw [insert_listings_spec, List.filter_append]
  by_cases hks : k ∈ keys s
  · -- the key already existed: its unique row is overwritten in place
    have hfresh : (freshRows t L (keys s)).filter (fun r => r.listing_key == k) = [] := by
      rw [List.filter_eq_nil_iff]
      intro r hr
      simp only [beq_iff_eq]
      exact fun hc => freshRows_key_mem t L (keys s) r hr (hc ▸ hks)
    rcases List.mem_map.mp hks with ⟨r0, hr0, hr0k⟩
    have hnn : (keys (s.map (creNet t L))).Nodup := by
      have : keys (s.map (creNet t L)) = keys s := by
        simp only [keys, List.map_map]
        exact List.map_congr_left (fun r _ => by simp [Function.comp_apply, creNet_key])
      rw [this]
      exact h
    have hmem : creNet t L r0 ∈ s.map (creNet t L) := List.mem_map_of_mem _ hr0
    have hckey : (creNet t L r0).listing_key = k := by rw [creNet_key]; exact hr0k
    rw [filter_key_single _ k hnn _ hmem hckey, hfresh]
    have : creNet t L r0 = mkRow t l := creNet_some (by rw [hr0k]; exact hl)
    rw [this]
    simp
  · -- the key is fresh: exactly one appended row, from the last occurrence
    have hmap : (s.map (creNet t L)).filter (fun r => r.listing_key == k) = [] := by
      rw [List.filter_eq_nil_iff]
      intro r hr
      simp only [beq_iff_eq]
      rcases List.mem_map.mp hr with ⟨r1, hr1, hre⟩
      intro hc
      exact hks (by
        rw [← hre, creNet_key] at hc
        exact hc ▸ List.mem_map_of_mem _ hr1)
    have hkf : k ∈ keys (freshRows t L (keys s)) := by
      have := mem_keys_freshRows t L (keys s) l (lastWith_mem hl)
      rw [hk] at this
      rcases List.mem_append.mp this with h1 | h1
      · exact absurd h1 hks
      · exact h1
    have hfn : (keys (freshRows t L (keys s))).Nodup := by
      have := keys_append_freshRows_nodup t L (keys s) h
      exact (List.nodup_append.mp this).2.1
    rcases List.mem_map.mp hkf with ⟨fr, hfr, hfrk⟩
    rcases freshRows_elem_spec t L (keys s) fr hfr with ⟨x, hx, hxe⟩
    have hxl : x = l := by
      rw [hfrk] at hx
      rw [hl] at hx
      exact (Option.some.injEq _ _ ▸ hx).symm ▸ rfl
    rw [hmap, filter_key_single _ k hfn fr hfr hfrk, List.nil_append, hxe, hxl]

/-- Witness for C5 (amended) at the duplicated pair of the
counterexample: the store ends with one row for `X`, from the last
occurrence. -/
theorem create_upsert_last_wins_witness :
    ((keys ([] : Store)).Nodup ∧
      lastWith [sampleRec "X" "100", sampleRec "X" "150"] "X" = some (sampleRec "X" "150")) ∧
    (insert_listings "T2" [sampleRec "X" "100", sampleRec "X" "150"] []).filter
        (fun r => r.listing_key == "X") = [mkRow "T2" (sampleRec "X" "150")] :=
  ⟨⟨by decide, by decide⟩,
   create_upsert_last_wins "T2" [sampleRec "X" "100", sampleRec "X" "150"] []
     "X" (sampleRec "X" "150") (by decide) (by decide)⟩

theorem has_changes_iff (l : ListingRecord) (d : Obj) :
    has_changes l d = true ↔
      (pyStrip (pyStrOpt l.ListPrice) ≠ pyStrip (storedField d "ListPrice") ∨
       pyStrip (pyStrOpt l.ListingStatus) ≠ pyStrip (storedField d "ListingStatus") ∨
       pyStrip l.ModificationTimestamp ≠
         pyStrip (storedField d "ModificationTimestamp")) := by
  rw [has_changes, key_fields]
  simp [listingField, bne_iff_ne]

/-- C6: an identifier present in both the new set and the snapshot is
placed in `update` exactly when one of the comparison fields `ListPrice`,
`ListingStatus`, `ModificationTimestamp` differs between the new record
and the stored blob under Python string conversion with whitespace
stripping (a field absent from the blob compares as the empty string via
the `.get(field, '')` default; a Python `None` value renders as `'None'`
under `str`). -/
theorem update_iff_comparison_differs
    (NL : List ListingRecord) (E : List (String × ExistingEntry))
    (k : String) (l : ListingRecord) (e : ExistingEntry)
    (hmem : l ∈ NL) (hk : l.ListingKey = k)
    (huniq : ∀ x ∈ NL, x.ListingKey = k → x = l)
    (hE : E.lookup k = some e) :
    (∃ u ∈ (detect_changes NL E).update, u.ListingKey = k) ↔
      (pyStrip (pyStrOpt l.ListPrice) ≠ pyStrip (storedField e.data "ListPrice") ∨
       pyStrip (pyStrOpt l.ListingStatus) ≠ pyStrip (storedField e.data "ListingStatus") ∨
       pyStrip l.ModificationTimestamp ≠
         pyStrip (storedField e.data "ModificationTimestamp")) := by
  rw [detect_changes_update]
  constructor
  · rintro ⟨u, hu, huk⟩
    rw [List.mem_filter] at hu
    have hue := huniq u hu.1 huk
    have h2 := hu.2
    rw [hue, hk, hE] at h2
    exact (has_changes_iff l e.data).mp h2
  · intro hdiff
    refine ⟨l, List.mem_filter.mpr ⟨hmem, ?_⟩, hk⟩
    rw [hk, hE]
    exact (has_changes_iff l e.data).mpr hdiff

/-- Witness for C6 at the spec's Scenario B: snapshot has `A` at price
100, the new set has `A` at price 150; the ChangeSet is exactly
`update:[A]` with empty `create` and `mark_sold`. -/
theorem update_iff_comparison_differs_witness :
    (∃ u ∈ (detect_changes [sampleRec "A" "150"]
        [("A", ⟨sampleBlob "100", "T0"⟩)]).update, u.ListingKey = "A") ∧
    (detect_changes [sampleRec "A" "150"] [("A", ⟨sampleBlob "100", "T0"⟩)]).create = [] ∧
    (detect_changes [sampleRec "A" "150"] [("A", ⟨sampleBlob "100", "T0"⟩)]).mark_sold = [] :=
  ⟨(update_iff_comparison_differs [sampleRec "A" "150"]
      [("A", ⟨sampleBlob "100", "T0"⟩)] "A" (sampleRec "A" "150")
      ⟨sampleBlob "100", "T0"⟩ (by decide) (by decide) (by decide) (by decide)).mpr
      (by decide),
   by decide, by decide⟩

/-- C7: every identifier of a ChangeSet's mark-inactive list that the
create and update phases do not also target keeps its row in the store
(it is never deleted): the row's status becomes the `SOLD` sentinel, the
audit annotation (`auto_marked_sold`, `marked_sold_at`) is merged into
the document blob while every other key of the prior blob keeps its
value, and every promoted column other than status is unchanged. -/
theorem mark_inactive_preserves_row (t : String) (c : ChangeSet) (s : Store)
    (r : StoredListing) (hr : r ∈ s) (hm : r.listing_key ∈ c.mark_sold)
    (hc : ∀ l ∈ c.create, l.ListingKey ≠ r.listing_key)
    (hu : ∀ l ∈ c.update, l.ListingKey ≠ r.listing_key) :
    ∃ r' ∈ execute_crud_operations t c s,
      r'.listing_key = r.listing_key ∧
      r'.listingstatus = some "SOLD" ∧
      (r'.data).lookup "auto_marked_sold" = some (.jbool true) ∧
      (r'.data).lookup "marked_sold_at" = some (.jstr t) ∧
      (∀ j, j ≠ "auto_marked_sold" → j ≠ "marked_sold_at" →
        (r'.data).lookup j = (r.data).lookup j) ∧
      r'.listingid = r.listingid ∧ r'.listprice = r.listprice ∧
      r'.streetname = r.streetname ∧ r'.city = r.city ∧
      r'.stateorprovince = r.stateorprovince ∧ r'.postalcode = r.postalcode ∧
      r'.bedroomstotal = r.bedroomstotal ∧
      r'.bathroomstotalinteger = r.bathroomstotalinteger ∧
      r'.livingarea = r.livingarea ∧ r'.latitude = r.latitude ∧
      r'.longitude = r.longitude ∧
      r'.modificationtimestamp = r.modificationtimestamp := by
  have hex : execNet t c r = markRow t r := by
    rw [execNet, creNet_none (lastWith_eq_none hc), updNet_none (lastWith_eq_none hu),
      markNet_mem hm]
  refine ⟨execNet t c r, ?_, ?_⟩
  · rw [execute_crud_operations_spec]
    exact List.mem_append_left _ (List.mem_map_of_mem _ hr)
  rw [hex]
  refine ⟨rfl, rfl, ?_, ?_, ?_, rfl, rfl, rfl, rfl, rfl, rfl, rfl, rfl, rfl, rfl, rfl, rfl⟩
  · show (objConcat r.data (sold_patch t)).lookup "auto_marked_sold" = _
    rw [objConcat_sold_patch, alistSet_lookup_ne _ _ _ _ sold_patch_keys_ne]
    exact alistSet_lookup_self _ _ _
  · show (objConcat r.data (sold_patch t)).lookup "marked_sold_at" = _
    rw [objConcat_sold_patch]
    exact alistSet_lookup_self _ _ _
  · intro j h1 h2
    show (objConcat r.data (sold_patch t)).lookup j = _
    rw [objConcat_sold_patch, alistSet_lookup_ne _ _ _ _ h2, alistSet_lookup_ne _ _ _ _ h1]

/-- Witness for C7 at the spec's Scenario C store: `C` stays present with
status flipped and its price column intact. -/
theorem mark_inactive_preserves_row_witness :
    ∃ r' ∈ execute_crud_operations "T2" ⟨[], [], ["C"]⟩ [sampleRow "C" "300"],
      r'.listing_key = "C" ∧ r'.listingstatus = some "SOLD" ∧
      r'.listprice = some "300" := by
  rcases mark_inactive_preserves_row "T2" ⟨[], [], ["C"]⟩ [sampleRow "C" "300"]
      (sampleRow "C" "300") (by decide) (by decide) (by decide) (by decide) with
    ⟨r', hmem, hkey, hst, _, _, _, _, hlp, _⟩
  exact ⟨r', hmem, hkey, hst, hlp⟩

theorem parse_idx_file_key_nonempty (t : String) (f : IdxFile) :
    ∀ l ∈ parse_idx_file t f, l.ListingKey ≠ "" := by
  intro l hl
  rw [parse_idx_file] at hl
  by_cases hr : f.readable
  · rw [if_pos hr] at hl
    rcases List.mem_filterMap.mp hl with ⟨row, _, hrow⟩
    rw [parseRow] at hrow
    by_cases ht : pyTruthy (rowGet row "LIST_NO") = true
    · rw [if_pos ht] at hrow
      rcases hv : rowGet row "LIST_NO" with _ | s
      · rw [hv] at ht
        simp [pyTruthy] at ht
      · have hs : s ≠ "" := by
          rw [hv] at ht
          simpa [pyTruthy] using ht
        injection hrow with hrec
        rw [← hrec]
        show (rowGet row "LIST_NO").getD "" ≠ ""
        rw [hv]
        simpa using hs
    · rw [if_neg ht] at hrow
      cases hrow
  · rw [if_neg hr] at hl
    cases hl

/-- C9: a feed row whose `LIST_NO` is missing or empty yields no record
(every parsed record has a non-empty identifier), and consequently — as
long as every snapshot key is non-empty — no empty external identifier
appears in any of the three lists of the ChangeSet built from the parsed
files. -/
theorem empty_identifier_never_in_changeset (t : String) (files : List IdxFile)
    (E : List (String × ExistingEntry)) (hE : ∀ p ∈ E, p.1 ≠ "") :
    (∀ f ∈ files, ∀ l ∈ parse_idx_file t f, l.ListingKey ≠ "") ∧
    (∀ l ∈ (detect_changes (files.flatMap (fun f => parse_idx_file t f)) E).create,
      l.ListingKey ≠ "") ∧
    (∀ l ∈ (detect_changes (files.flatMap (fun f => parse_idx_file t f)) E).update,
      l.ListingKey ≠ "") ∧
    (∀ k ∈ (detect_changes (files.flatMap (fun f => parse_idx_file t f)) E).mark_sold,
      k ≠ "") := by
  have hNL : ∀ l ∈ files.flatMap (fun f => parse_idx_file t f), l.ListingKey ≠ "" := by
    intro l hl
    rcases List.mem_flatMap.mp hl with ⟨f, _, hf⟩
    exact parse_idx_file_key_nonempty t f l hf
  refine ⟨fun f _ => parse_idx_file_key_nonempty t f, ?_, ?_, ?_⟩
  · intro l hl
    rw [detect_changes_create] at hl
    exact hNL l (List.mem_filter.mp hl).1
  · intro l hl
    rw [detect_changes_update] at hl
    exact hNL l (List.mem_filter.mp hl).1
  · intro k hk
    rw [detect_changes_mark_sold] at hk
    rcases List.mem_map.mp (List.mem_filter.mp hk).1 with ⟨p, hp, hpk⟩
    exact hpk ▸ hE p hp

/-- Witness for C9 at a file mixing a keyless row, an empty-key row and a
valid row. -/
theorem empty_identifier_never_in_changeset_witness :
    (∀ f ∈ [fileMixed], ∀ l ∈ parse_idx_file "T2" f, l.ListingKey ≠ "") ∧
    (∀ l ∈ (detect_changes ([fileMixed].flatMap (fun f => parse_idx_file "T2" f))
        [("A", ⟨sampleBlob "100", "T0"⟩)]).create, l.ListingKey ≠ "") ∧
    (∀ l ∈ (detect_changes ([fileMixed].flatMap (fun f => parse_idx_file "T2" f))
        [("A", ⟨sampleBlob "100", "T0"⟩)]).update, l.ListingKey ≠ "") ∧
    (∀ k ∈ (detect_changes ([fileMixed].flatMap (fun f => parse_idx_file "T2" f))
        [("A", ⟨sampleBlob "100", "T0"⟩)]).mark_sold, k ≠ "") :=
  empty_identifier_never_in_changeset "T2" [fileMixed]
    [("A", ⟨sampleBlob "100", "T0"⟩)] (by decide)

/-! ### process_files runs -/

theorem process_files_state (t : String) (files : List IdxFile) (ls : LogState)
    (s : Store) :
    (process_files t files ls s).state =
      files.foldl (process_one_file t) ⟨ls, [], 0, 0, 0⟩ := by
  simp only [process_files]
  split <;> rfl

theorem unchanged_fold (t : String) (files : List IdxFile)
    (es : List (String × LogEntry)) (st : RunState) (hlog : st.logState = .valid es)
    (h : ∀ f ∈ files, f.readable = true ∧
      (es.lookup f.name).map (fun e => e.hash) = some f.content) :
    files.foldl (process_one_file t) st =
      { st with skipped_files := st.skipped_files + files.length } := by
  induction files generalizing st with
  | nil => simp
  | cons f fs ih =>
    have hf := h f (List.mem_cons_self _ _)
    have hchanged : has_file_changed f st.logState = .ok false := by
      rw [has_file_changed, hlog, get_file_hash, if_pos hf.1]
      show Except.ok (some f.content != (es.lookup f.name).map (fun e => e.hash))
        = Except.ok false
      rw [hf.2]
      simp
    rw [List.foldl_cons, process_one_file, hchanged]
    show fs.foldl (process_one_file t)
      { st with skipped_files := st.skipped_files + 1 } = _
    rw [ih { st with skipped_files := st.skipped_files + 1 } hlog
      (fun g hg => h g (List.mem_cons_of_mem _ hg))]
    have : st.skipped_files + 1 + fs.length = st.skipped_files + (f :: fs).length := by
      simp [List.length_cons]
      omega
    rw [this]

theorem fresh_fold (t : String) (files : List IdxFile) (st : RunState)
    (es : List (String × LogEntry))
    (hload : load_processed_files_log st.logState = .ok es)
    (hread : ∀ f ∈ files, f.readable = true)
    (hfresh : ∀ f ∈ files, es.lookup f.name = none)
    (hnames : (files.map (fun f => f.name)).Nodup) :
    ∃ ls2, files.foldl (process_one_file t) st =
      { st with
        logState := ls2
        all_new_listings :=
          st.all_new_listings ++ files.flatMap (fun f => parse_idx_file t f)
        processed_files := st.processed_files + files.length } := by
  induction files generalizing st es with
  | nil => exact ⟨st.logState, by simp⟩
  | cons f fs ih =>
    have hrf := hread f (List.mem_cons_self _ _)
    have hchanged : has_file_changed f st.logState = .ok true := by
      rw [has_file_changed, get_file_hash, if_pos hrf, hload]
      show Except.ok (some f.content != (es.lookup f.name).map (fun e => e.hash))
        = Except.ok true
      rw [hfresh f (List.mem_cons_self _ _)]
      rfl
    have hmark : mark_file_processed t f st.logState =
        .ok (.valid (alistSet es f.name ⟨f.content, t, f.name⟩)) := by
      rw [mark_file_processed, get_file_hash, if_pos hrf, hload]
      rfl
    have hstep : List.foldl (process_one_file t) st (f :: fs) =
        List.foldl (process_one_file t)
          { st with
            logState := .valid (alistSet es f.name ⟨f.content, t, f.name⟩)
            all_new_listings := st.all_new_listings ++ parse_idx_file t f
            processed_files := st.processed_files + 1 } fs := by
      rw [List.foldl_cons, process_one_file, hchanged, hmark]
    rw [hstep]
    simp only [List.map_cons, List.nodup_cons] at hnames
    have hfresh2 : ∀ g ∈ fs, (alistSet es f.name ⟨f.content, t, f.name⟩).lookup g.name = none := by
      intro g hg
      have hne : g.name ≠ f.name := fun hc =>
        hnames.1 (hc ▸ List.mem_map_of_mem _ hg)
      rw [alistSet_lookup_ne _ _ _ _ hne]
      exact hfresh g (List.mem_cons_of_mem _ hg)
    rcases ih { st with
        all_new_listings := st.all_new_listings ++ parse_idx_file t f
        logState := .valid (alistSet es f.name ⟨f.content, t, f.name⟩)
        processed_files := st.processed_files + 1 }
      (alistSet es f.name ⟨f.content, t, f.name⟩) rfl
      (fun g hg => hread g (List.mem_cons_of_mem _ hg)) hfresh2 hnames.2 with ⟨ls2, hfold⟩
    refine ⟨ls2, ?_⟩
    rw [hfold]
    have h1 : st.all_new_listings ++ parse_idx_file t f ++ fs.flatMap (fun g => parse_idx_file t g)
        = st.all_new_listings ++ (f :: fs).flatMap (fun g => parse_idx_file t g) := by
      rw [List.flatMap_cons, List.append_assoc]
    have h2 : st.processed_files + 1 + fs.length = st.processed_files + (f :: fs).length := by
      simp [List.length_cons]
      omega
    rw [h1, h2]

/-- C3 counterexample: in a mixed run, `idx_sf.txt` is unchanged (its
hash matches the log) and is skipped, while `idx_mf.txt` changed and
contributes listing `B`; the stored listing `A`, whose only source is
the skipped file, is nevertheless placed in mark-inactive and its status
flipped to `SOLD`. -/
theorem skipped_file_marks_inactive_counterexample :
    (process_files "T2" [fileSF, fileMF] logSF [sampleRow "A" "100"]).state.skipped_files = 1 ∧
    (process_files "T2" [fileSF, fileMF] logSF [sampleRow "A" "100"]).total_mark_sold = 1 ∧
    ((process_files "T2" [fileSF, fileMF] logSF [sampleRow "A" "100"]).store.map
      (fun r => (r.listing_key, r.listingstatus)))
      = [("A", some "SOLD"), ("B", some "ACT")] :=
  ⟨by decide, by decide, by decide⟩

/-- C3 (amended): a file whose content hash matches the log is skipped
and contributes zero records; when every file of the run is unchanged,
the run executes no store operation at all — nothing is created, updated,
or marked inactive.  When some other file does contribute records,
however, listings present only in the skipped file are placed in
mark-inactive (see the counterexample). -/
theorem all_files_unchanged_run_is_noop (t : String) (files : List IdxFile)
    (es : List (String × LogEntry)) (s : Store)
    (h : ∀ f ∈ files, f.readable = true ∧
      (es.lookup f.name).map (fun e => e.hash) = some f.content) :
    (process_files t files (.valid es) s).store = s ∧
    (process_files t files (.valid es) s).state.skipped_files = files.length ∧
    (process_files t files (.valid es) s).state.all_new_listings = [] ∧
    (process_files t files (.valid es) s).total_create = 0 ∧
    (process_files t files (.valid es) s).total_update = 0 ∧
    (process_files t files (.valid es) s).total_mark_sold = 0 := by
  have hfold := unchanged_fold t files es ⟨.valid es, [], 0, 0, 0⟩ rfl h
  simp only [process_files, hfold]
  simp

/-- Witness for C3 (amended): a single-file run whose hash matches the
log leaves the store untouched. -/
theorem all_files_unchanged_run_is_noop_witness :
    (process_files "T2" [fileSF]
      (.valid [("idx_sf.txt", ⟨"HSF", "T0", "idx_sf.txt"⟩)])
      [sampleRow "A" "100"]).store = [sampleRow "A" "100"] ∧
    (process_files "T2" [fileSF]
      (.valid [("idx_sf.txt", ⟨"HSF", "T0", "idx_sf.txt"⟩)])
      [sampleRow "A" "100"]).state.skipped_files = 1 ∧
    (process_files "T2" [fileSF]
      (.valid [("idx_sf.txt", ⟨"HSF", "T0", "idx_sf.txt"⟩)])
      [sampleRow "A" "100"]).state.all_new_listings = [] ∧
    (process_files "T2" [fileSF]
      (.valid [("idx_sf.txt", ⟨"HSF", "T0", "idx_sf.txt"⟩)])
      [sampleRow "A" "100"]).total_create = 0 ∧
    (process_files "T2" [fileSF]
      (.valid [("idx_sf.txt", ⟨"HSF", "T0", "idx_sf.txt"⟩)])
      [sampleRow "A" "100"]).total_update = 0 ∧
    (process_files "T2" [fileSF]
      (.valid [("idx_sf.txt", ⟨"HSF", "T0", "idx_sf.txt"⟩)])
      [sampleRow "A" "100"]).total_mark_sold = 0 :=
  all_files_unchanged_run_is_noop "T2" [fileSF]
    [("idx_sf.txt", ⟨"HSF", "T0", "idx_sf.txt"⟩)] [sampleRow "A" "100"] (by decide)

/-- C8 counterexample: with a CORRUPTED log, `json.load` raises inside
`has_file_changed`, the per-file handler records an error, and the file —
although readable and holding a parseable row — is neither parsed nor
classified: nothing is reprocessed, contradicting the always-reprocess
fallback. -/
theorem corrupted_log_counterexample :
    parse_idx_file "T2" fileMF ≠ [] ∧
    (process_files "T2" [fileMF] .corrupted []).state.processed_files = 0 ∧
    (process_files "T2" [fileMF] .corrupted []).state.errors = 1 ∧
    (process_files "T2" [fileMF] .corrupted []).store = [] ∧
    (process_files "T2" [fileMF] .corrupted []).total_create = 0 :=
  ⟨by decide, by decide, by decide, by decide, by decide⟩

/-- C8 (amended): with an ABSENT (empty) log every file is treated as
changed: each file is parsed and its rows submitted to classification
(no skips, no errors).  With a corrupted log the pipeline instead
error-skips every file (see the counterexample), so the always-reprocess
fallback holds only for the empty/absent case. -/
theorem absent_log_reprocesses_all (t : String) (files : List IdxFile) (s : Store)
    (hread : ∀ f ∈ files, f.readable = true)
    (hnames : (files.map (fun f => f.name)).Nodup) :
    (process_files t files .absent s).state.processed_files = files.length ∧
    (process_files t files .absent s).state.skipped_files = 0 ∧
    (process_files t files .absent s).state.errors = 0 ∧
    (process_files t files .absent s).state.all_new_listings =
      files.flatMap (fun f => parse_idx_file t f) := by
  rcases fresh_fold t files ⟨.absent, [], 0, 0, 0⟩ [] rfl hread (fun f _ => rfl)
    hnames with ⟨ls2, hfold⟩
  rw [process_files_state, hfold]
  simp

/-- Witness for C8 (amended) at a two-file run over the absent log. -/
theorem absent_log_reprocesses_all_witness :
    (process_files "T2" [fileSF, fileMF] .absent []).state.processed_files = 2 ∧
    (process_files "T2" [fileSF, fileMF] .absent []).state.skipped_files = 0 ∧
    (process_files "T2" [fileSF, fileMF] .absent []).state.errors = 0 ∧
    (process_files "T2" [fileSF, fileMF] .absent []).state.all_new_listings =
      [fileSF, fileMF].flatMap (fun f => parse_idx_file "T2" f) :=
  absent_log_reprocesses_all "T2" [fileSF, fileMF] [] (by decide) (by decide)

/-- C10: a `process_files` run whose unioned new record set comes out
empty (every file skipped, empty, or failed) executes no store operation
at all: the table is returned exactly unchanged and every change counter
is zero — in particular an all-files-skipped run does not mark the store
inactive. -/
theorem empty_union_mutates_nothing (t : String) (files : List IdxFile)
    (ls : LogState) (s : Store)
    (h : (process_files t files ls s).state.all_new_listings = []) :
    (process_files t files ls s).store = s ∧
    (process_files t files ls s).total_create = 0 ∧
    (process_files t files ls s).total_update = 0 ∧
    (process_files t files ls s).total_mark_sold = 0 := by
  rw [process_files_state] at h
  have hempty : (files.foldl (process_one_file t)
      ⟨ls, [], 0, 0, 0⟩).all_new_listings.isEmpty = true := by
    rw [h]
    rfl
  simp only [process_files, hempty]
  simp

/-- Witness for C10: an all-skipped run. -/
theorem empty_union_mutates_nothing_witness :
    (process_files "T2" [fileSF] logSF [sampleRow "A" "100"]).store
        = [sampleRow "A" "100"] ∧
    (process_files "T2" [fileSF] logSF [sampleRow "A" "100"]).total_create = 0 ∧
    (process_files "T2" [fileSF] logSF [sampleRow "A" "100"]).total_update = 0 ∧
    (process_files "T2" [fileSF] logSF [sampleRow "A" "100"]).total_mark_sold = 0 :=
  empty_union_mutates_nothing "T2" [fileSF] logSF [sampleRow "A" "100"] (by decide)

end MlsPipeline
